import Mathlib

/-!
# Verification of the mockconn scripted connection double

A shallow embedding of the scenario-cursor state machine of the `mockconn`
Go package (`mock.go`): actions (`Read`/`Write`/`Close`), the `Conn` state
(diagnostic list, scenario, cursor, closed latch) and the four operations
`Read`, `Write`, `Close`, `Verify`, together with theorems about them.

Bytes are modelled as natural numbers (Go bytes are `uint8`; the code only
compares them for equality, so the widening is faithful).  Diagnostics are
modelled as structured records, one constructor per distinct `fmt.Errorf`
message produced by the package; the cosmetic colour formatting carries no
information and is omitted.  A Go panic (out-of-range slice index) is
modelled by an `Option` result of `none`.  The `*testing.T` handle only
mirrors diagnostics to the test log and never feeds back into the state,
so it is omitted; the local/remote addresses and deadline setters carry no
scenario semantics and are omitted as well.
-/

namespace Mockconn

/-- A byte, widened to a natural number. -/
abbrev Byte := Nat

/-- One scripted action.  Mirrors `readAction` / `writeAction` /
`closeAction` in `mock.go`: `data` is the mutable remaining payload,
`original` the immutable declared payload.  The `nullAction` sentinel is
represented by `Option.none` at the `getAction` boundary. -/
inductive Action where
  | read (data original : List Byte)
  | write (data original : List Byte)
  | close
  deriving DecidableEq

/-- Structured diagnostic records: one constructor per distinct
`fmt.Errorf` message of `mock.go`, carrying the format arguments. -/
inductive Diag where
  | shouldCloseButRead (idx : Nat)
  | shouldReadButWrite (idx : Nat)
  | writeMismatch (idx : Nat) (expected actual : List Byte)
  | shouldCloseButWrite (idx : Nat)
  | shouldReadButClose (idx : Nat)
  | shouldWriteButClose (idx : Nat)
  | remainedRead (idx : Nat) (data : List Byte)
  | remainedWrite (idx : Nat) (data : List Byte)
  | unconsumed (count total : Nat)
  deriving DecidableEq

/-- An error returned by `Read`/`Write`/`Close`: either the bare
"already closed" error or a diagnostic that was also recorded. -/
inductive RWErr where
  | alreadyClosed
  | diag (d : Diag)
  deriving DecidableEq

/-- The mock connection state: mirrors the `Conn` struct of `mock.go`
(`errors`, `scenario`, `current`, `closed`).  The `t` handle and the two
addresses are omitted: they never influence the scenario state. -/
structure Conn where
  errors : List Diag
  scenario : List Action
  current : Nat
  closed : Bool
  deriving DecidableEq

/-- `Read(data)` action constructor: `data = original = data`. -/
def Read (data : List Byte) : Action := .read data data

/-- `Write(data)` action constructor: `data = original = data`. -/
def Write (data : List Byte) : Action := .write data data

/-- `Close()` action constructor. -/
def Close : Action := .close

/-- `New(t)`: fresh connection with empty scenario and no errors. -/
def New : Conn := { errors := [], scenario := [], current := 0, closed := false }

/-- `SetExpectedActions`: installs the scenario. -/
def Conn.setExpectedActions (c : Conn) (scenario : List Action) : Conn :=
  { c with scenario := scenario }

/-- `Conn.getAction`: the action at index `i`, or `none` for the
`nullAction` sentinel when `i` is past the end of the scenario. -/
def Conn.getAction (c : Conn) (i : Nat) : Option Action := c.scenario.get? i

/-- `Conn.addError`: appends a diagnostic to the accumulated list
(the mirroring to `t.Error` is log-only and not modelled). -/
def Conn.addErr (c : Conn) (d : Diag) : Conn := { c with errors := c.errors ++ [d] }

/-- The byte-comparison loop of `Conn.Write`: compares `b` against the
front of `data` position by position (under the `len(b) <= len(data)`
guard this is exactly the prefix test). -/
def sameBytes : List Byte → List Byte → Bool
  | [], _ => true
  | _ :: _, [] => false
  | x :: xs, y :: ys => x == y && sameBytes xs ys

/-- `Conn.Read`, shallow embedding.  The buffer is represented by its
capacity `cap`; the result carries the returned count, the bytes copied
into the buffer, the returned error (if any) and the new state.  A result
of `none` models a Go panic: the branch for a fully-satisfied `Write`
action indexes `c.scenario[c.current]` directly after incrementing the
cursor, which is out of range when that action is last. -/
def Conn.read (c : Conn) (cap : Nat) : Option ((Nat × List Byte) × Option RWErr × Conn) :=
  if c.closed then some ((0, []), some .alreadyClosed, c) else
  match h : c.getAction c.current with
  | some (.read d orig) =>
    if 0 < d.length then
      let n := min cap d.length
      some ((n, d.take n), none,
        { c with scenario := c.scenario.set c.current (.read (d.drop n) orig) })
    else
      match c.getAction (c.current + 1) with
      | some (.read _ _) => Conn.read { c with current := c.current + 1 } cap
      | _ => some ((0, []), none, c)
  | some (.write d _) =>
    if d.length = 0 then
      if c.current + 1 < c.scenario.length then
        some ((0, []), none, { c with current := c.current + 1 })
      else
        none
    else
      some ((0, []), some (.diag (.shouldCloseButRead (c.current + 1))),
        c.addErr (.shouldCloseButRead (c.current + 1)))
  | some .close =>
    some ((0, []), some (.diag (.shouldCloseButRead (c.current + 1))),
      c.addErr (.shouldCloseButRead (c.current + 1)))
  | none => some ((0, []), none, c)
termination_by c.scenario.length - c.current
decreasing_by
  simp only [Conn.getAction] at h
  have hlt := (List.get?_eq_some.mp h).1
  omega

/-- `Conn.Write`, shallow embedding: returns the accepted count, the
returned error (if any) and the new state. -/
def Conn.write (c : Conn) (b : List Byte) : Nat × Option RWErr × Conn :=
  if c.closed then (0, some .alreadyClosed, c) else
  match h : c.getAction c.current with
  | some (.read d _) =>
    if 0 < d.length then
      (0, some (.diag (.shouldReadButWrite (c.current + 1))),
        c.addErr (.shouldReadButWrite (c.current + 1)))
    else
      Conn.write { c with current := c.current + 1 } b
  | some (.write d orig) =>
    if b.length ≤ d.length then
      if sameBytes b d then
        if b.length = d.length then
          (b.length, none, { c with current := c.current + 1 })
        else
          (b.length, none,
            { c with scenario := c.scenario.set c.current (.write (d.drop b.length) orig) })
      else
        (0, some (.diag (.writeMismatch (c.current + 1) d b)),
          c.addErr (.writeMismatch (c.current + 1) d b))
    else
      (0, some (.diag (.writeMismatch (c.current + 1) d b)),
        c.addErr (.writeMismatch (c.current + 1) d b))
  | some .close =>
    (0, some (.diag (.shouldCloseButWrite (c.current + 1))),
      c.addErr (.shouldCloseButWrite (c.current + 1)))
  | none => (0, none, c)
termination_by c.scenario.length - c.current
decreasing_by
  simp only [Conn.getAction] at h
  have hlt := (List.get?_eq_some.mp h).1
  omega

/-- `Conn.Close`, shallow embedding: returns the error (if any) and the
new state. -/
def Conn.close (c : Conn) : Option RWErr × Conn :=
  if c.closed then (some .alreadyClosed, c) else
  match h : c.getAction c.current with
  | some (.read d _) =>
    if 0 < d.length then
      (some (.diag (.shouldReadButClose (c.current + 1))),
        c.addErr (.shouldReadButClose (c.current + 1)))
    else
      Conn.close { c with current := c.current + 1 }
  | some (.write _ _) =>
    (some (.diag (.shouldWriteButClose (c.current + 1))),
      c.addErr (.shouldWriteButClose (c.current + 1)))
  | some .close => (none, { c with current := c.current + 1, closed := true })
  | none => (none, { c with closed := true })
termination_by c.scenario.length - c.current
decreasing_by
  simp only [Conn.getAction] at h
  have hlt := (List.get?_eq_some.mp h).1
  omega

/-- `Conn.Verify`, shallow embedding: snapshots the error list, appends
leftover-data diagnostics for the action at the cursor (advancing the
cursor), appends the unconsumed-scenario diagnostic if the cursor is
still before the end, returns the grown list and restores the snapshot
as the stored list.  The `t`-attached per-action summary is log-only
and not modelled. -/
def Conn.verify (c : Conn) : List Diag × Conn :=
  let baseline := c.errors
  let c1 : Conn :=
    match c.getAction c.current with
    | some (.read d _) =>
      let ca := if 0 < d.length then c.addErr (.remainedRead (c.current + 1) d) else c
      { ca with current := ca.current + 1 }
    | some (.write d _) =>
      { c.addErr (.remainedWrite (c.current + 1) d) with current := c.current + 1 }
    | _ => c
  let c2 : Conn :=
    if c1.current < c1.scenario.length then
      c1.addErr (.unconsumed (c1.scenario.length - c1.current) c1.scenario.length)
    else c1
  (c2.errors, { c2 with errors := baseline })

/-- Folds `Conn.write` over a list of chunks, collecting each call's
returned count and error. -/
def writeAll (c : Conn) (chunks : List (List Byte)) : List (Nat × Option RWErr) × Conn :=
  match chunks with
  | [] => ([], c)
  | ch :: rest =>
    let r := c.write ch
    let w := writeAll r.2.2 rest
    ((r.1, r.2.1) :: w.1, w.2)

/-- Whether an action is a `Read` action. -/
def Action.isRead : Action → Bool
  | .read _ _ => true
  | _ => false

/-- A connection whose whole scenario consists of `Read` actions. -/
def allRead (c : Conn) : Prop := ∀ a ∈ c.scenario, a.isRead = true

/-- The bytes still deliverable by receives: concatenation of the
remaining payloads of the `Read` actions from the cursor onwards. -/
def streamFrom (c : Conn) : List Byte :=
  ((c.scenario.drop c.current).map fun a =>
    match a with
    | .read d _ => d
    | _ => []).flatten

/-- The bytes of the string "hello!!". -/
def helloBytes : List Byte := [104, 101, 108, 108, 111, 33, 33]

/-- The bytes of the string "good morning!!". -/
def goodMorningBytes : List Byte := [103, 111, 111, 100, 32, 109, 111, 114, 110, 105, 110, 103, 33, 33]

/-- The scenario `[Write("hello!!"), Close()]` freshly installed. -/
def connMismatch : Conn := New.setExpectedActions [Write helloBytes, Close]

/-! ## Basic lemmas about the byte-comparison loop -/

theorem sameBytes_refl (d : List Byte) : sameBytes d d = true := by
  induction d with
  | nil => rfl
  | cons x xs ih => simp [sameBytes, ih]

theorem sameBytes_append (b t : List Byte) : sameBytes b (b ++ t) = true := by
  induction b with
  | nil => rfl
  | cons x xs ih => simp [sameBytes, ih]

theorem sameBytes_eq_true_iff (b d : List Byte) :
    sameBytes b d = true ↔ ∀ i, i < b.length → b.get? i = d.get? i := by
  induction b generalizing d with
  | nil => simp [sameBytes]
  | cons x xs ih =>
    cases d with
    | nil =>
      simp only [sameBytes, Bool.false_eq_true, false_iff, not_forall]
      exact ⟨0, by simp⟩
    | cons y ys =>
      simp only [sameBytes, Bool.and_eq_true, beq_iff_eq, ih]
      constructor
      · rintro ⟨hxy, hrec⟩ i hi
        cases i with
        | zero => simp [hxy]
        | succ j => simpa using hrec j (by simpa using hi)
      · intro hall
        refine ⟨by simpa using hall 0 (by simp), fun j hj => ?_⟩
        simpa using hall (j + 1) (by simpa using hj)

/-- Dropping at the overwritten index exposes the new element followed by
the untouched tail. -/
theorem drop_set_cons {α : Type} (l : List α) (i : Nat) (a : α) (h : i < l.length) :
    (l.set i a).drop i = a :: l.drop (i + 1) := by
  induction l generalizing i with
  | nil => simp at h
  | cons x xs ih =>
    cases i with
    | zero => simp
    | succ j => simpa using ih j (by simpa using h)

/-! ## One-step unfolding lemmas for the three operations -/

theorem Conn.read_closed (c : Conn) (cap : Nat) (hcl : c.closed = true) :
    c.read cap = some ((0, []), some .alreadyClosed, c) := by
  rw [Conn.read]
  simp [hcl]

theorem Conn.read_data (c : Conn) (cap : Nat) (d orig : List Byte)
    (hcl : c.closed = false) (hg : c.getAction c.current = some (.read d orig)) (hd : d ≠ []) :
    c.read cap = some ((min cap d.length, d.take (min cap d.length)), none,
      { c with scenario := c.scenario.set c.current (.read (d.drop (min cap d.length)) orig) }) := by
  rw [Conn.read]
  simp only [hcl, Bool.false_eq_true, if_false]
  split <;> simp_all [List.length_pos.mpr hd]

theorem Conn.read_skipRead (c : Conn) (cap : Nat) (orig d' orig' : List Byte)
    (hcl : c.closed = false) (hg : c.getAction c.current = some (.read [] orig))
    (hn : c.getAction (c.current + 1) = some (.read d' orig')) :
    c.read cap = ({ c with current := c.current + 1 }).read cap := by
  rw [Conn.read]
  simp only [hcl, Bool.false_eq_true, if_false]
  split <;> simp_all

theorem Conn.read_noNext (c : Conn) (cap : Nat) (orig : List Byte)
    (hcl : c.closed = false) (hg : c.getAction c.current = some (.read [] orig))
    (hn : ∀ d' o', c.getAction (c.current + 1) = some (.read d' o') → False) :
    c.read cap = some ((0, []), none, c) := by
  rw [Conn.read]
  simp only [hcl, Bool.false_eq_true, if_false]
  split <;> simp_all

theorem Conn.read_emptyWrite (c : Conn) (cap : Nat) (orig : List Byte)
    (hcl : c.closed = false) (hg : c.getAction c.current = some (.write [] orig))
    (hlt : c.current + 1 < c.scenario.length) :
    c.read cap = some ((0, []), none, { c with current := c.current + 1 }) := by
  rw [Conn.read]
  simp only [hcl, Bool.false_eq_true, if_false]
  split <;> simp_all

theorem Conn.read_emptyWriteLast (c : Conn) (cap : Nat) (orig : List Byte)
    (hcl : c.closed = false) (hg : c.getAction c.current = some (.write [] orig))
    (hlt : ¬ c.current + 1 < c.scenario.length) :
    c.read cap = none := by
  rw [Conn.read]
  simp only [hcl, Bool.false_eq_true, if_false]
  split <;> simp_all

theorem Conn.read_pastEnd (c : Conn) (cap : Nat)
    (hcl : c.closed = false) (hg : c.getAction c.current = none) :
    c.read cap = some ((0, []), none, c) := by
  rw [Conn.read]
  simp only [hcl, Bool.false_eq_true, if_false]
  split <;> simp_all

theorem Conn.read_onWrite (c : Conn) (cap : Nat) (d orig : List Byte)
    (hcl : c.closed = false) (hg : c.getAction c.current = some (.write d orig)) (hd : d ≠ []) :
    c.read cap = some ((0, []), some (.diag (.shouldCloseButRead (c.current + 1))),
      { c with errors := c.errors ++ [.shouldCloseButRead (c.current + 1)] }) := by
  rw [Conn.read]
  simp only [hcl, Bool.false_eq_true, if_false]
  split <;> simp_all [Conn.addErr]

theorem Conn.read_onClose (c : Conn) (cap : Nat)
    (hcl : c.closed = false) (hg : c.getAction c.current = some .close) :
    c.read cap = some ((0, []), some (.diag (.shouldCloseButRead (c.current + 1))),
      { c with errors := c.errors ++ [.shouldCloseButRead (c.current + 1)] }) := by
  rw [Conn.read]
  simp only [hcl, Bool.false_eq_true, if_false]
  split <;> simp_all [Conn.addErr]

theorem Conn.write_closed (c : Conn) (b : List Byte) (hcl : c.closed = true) :
    c.write b = (0, some .alreadyClosed, c) := by
  rw [Conn.write]
  simp [hcl]

theorem Conn.write_skipRead (c : Conn) (b : List Byte) (orig : List Byte)
    (hcl : c.closed = false) (hg : c.getAction c.current = some (.read [] orig)) :
    c.write b = ({ c with current := c.current + 1 }).write b := by
  rw [Conn.write]
  simp only [hcl, Bool.false_eq_true, if_false]
  split <;> simp_all

theorem Conn.write_complete (c : Conn) (d orig : List Byte)
    (hcl : c.closed = false) (hg : c.getAction c.current = some (.write d orig)) :
    c.write d = (d.length, none, { c with current := c.current + 1 }) := by
  rw [Conn.write]
  simp only [hcl, Bool.false_eq_true, if_false]
  split <;> simp_all [sameBytes_refl]

theorem Conn.write_shrink (c : Conn) (b d orig : List Byte)
    (hcl : c.closed = false) (hg : c.getAction c.current = some (.write d orig))
    (hlt : b.length < d.length) (hsame : sameBytes b d = true) :
    c.write b = (b.length, none,
      { c with scenario := c.scenario.set c.current (.write (d.drop b.length) orig) }) := by
  rw [Conn.write]
  simp only [hcl, Bool.false_eq_true, if_false]
  split <;> simp_all [Nat.le_of_lt hlt, Nat.ne_of_lt hlt]

theorem Conn.write_mismatch (c : Conn) (b d orig : List Byte)
    (hcl : c.closed = false) (hg : c.getAction c.current = some (.write d orig))
    (hbad : d.length < b.length ∨ sameBytes b d = false) :
    c.write b = (0, some (.diag (.writeMismatch (c.current + 1) d b)),
      { c with errors := c.errors ++ [.writeMismatch (c.current + 1) d b] }) := by
  rw [Conn.write]
  simp only [hcl, Bool.false_eq_true, if_false]
  rcases hbad with hlen | hsame
  · split <;> simp_all [Conn.addErr]
  · split <;> simp_all [Conn.addErr]

theorem Conn.write_onRead (c : Conn) (b : List Byte) (d orig : List Byte)
    (hcl : c.closed = false) (hg : c.getAction c.current = some (.read d orig)) (hd : d ≠ []) :
    c.write b = (0, some (.diag (.shouldReadButWrite (c.current + 1))),
      { c with errors := c.errors ++ [.shouldReadButWrite (c.current + 1)] }) := by
  rw [Conn.write]
  simp only [hcl, Bool.false_eq_true, if_false]
  split <;> simp_all [Conn.addErr, List.length_pos.mpr hd]

theorem Conn.write_onClose (c : Conn) (b : List Byte)
    (hcl : c.closed = false) (hg : c.getAction c.current = some .close) :
    c.write b = (0, some (.diag (.shouldCloseButWrite (c.current + 1))),
      { c with errors := c.errors ++ [.shouldCloseButWrite (c.current + 1)] }) := by
  rw [Conn.write]
  simp only [hcl, Bool.false_eq_true, if_false]
  split <;> simp_all [Conn.addErr]

theorem Conn.write_pastEnd (c : Conn) (b : List Byte)
    (hcl : c.closed = false) (hg : c.getAction c.current = none) :
    c.write b = (0, none, c) := by
  rw [Conn.write]
  simp only [hcl, Bool.false_eq_true, if_false]
  split <;> simp_all

theorem Conn.close_closed (c : Conn) (hcl : c.closed = true) :
    c.close = (some .alreadyClosed, c) := by
  rw [Conn.close]
  simp [hcl]

theorem Conn.close_skipRead (c : Conn) (orig : List Byte)
    (hcl : c.closed = false) (hg : c.getAction c.current = some (.read [] orig)) :
    c.close = ({ c with current := c.current + 1 }).close := by
  rw [Conn.close]
  simp only [hcl, Bool.false_eq_true, if_false]
  split <;> simp_all

theorem Conn.close_onRead (c : Conn) (d orig : List Byte)
    (hcl : c.closed = false) (hg : c.getAction c.current = some (.read d orig)) (hd : d ≠ []) :
    c.close = (some (.diag (.shouldReadButClose (c.current + 1))),
      { c with errors := c.errors ++ [.shouldReadButClose (c.current + 1)] }) := by
  rw [Conn.close]
  simp only [hcl, Bool.false_eq_true, if_false]
  split <;> simp_all [Conn.addErr, List.length_pos.mpr hd]

theorem Conn.close_onWrite (c : Conn) (d orig : List Byte)
    (hcl : c.closed = false) (hg : c.getAction c.current = some (.write d orig)) :
    c.close = (some (.diag (.shouldWriteButClose (c.current + 1))),
      { c with errors := c.errors ++ [.shouldWriteButClose (c.current + 1)] }) := by
  rw [Conn.close]
  simp only [hcl, Bool.false_eq_true, if_false]
  split <;> simp_all [Conn.addErr]

theorem Conn.close_onClose (c : Conn)
    (hcl : c.closed = false) (hg : c.getAction c.current = some .close) :
    c.close = (none, { c with current := c.current + 1, closed := true }) := by
  rw [Conn.close]
  simp only [hcl, Bool.false_eq_true, if_false]
  split <;> simp_all

theorem Conn.close_pastEnd (c : Conn)
    (hcl : c.closed = false) (hg : c.getAction c.current = none) :
    c.close = (none, { c with closed := true }) := by
  rw [Conn.close]
  simp only [hcl, Bool.false_eq_true, if_false]
  split <;> simp_all

/-- `Verify` always returns the entry list followed by some new
diagnostics, and restores the stored list to the entry list. -/
theorem Conn.verify_frame (c : Conn) :
    (∃ extra, (c.verify).1 = c.errors ++ extra) ∧ (c.verify).2.errors = c.errors := by
  refine ⟨?_, rfl⟩
  unfold Conn.verify
  dsimp only
  split <;> split <;> (try split) <;>
    first
      | (simp only [Conn.addErr, List.append_assoc]; exact ⟨_, rfl⟩)
      | exact ⟨[], (List.append_nil _).symm⟩

/-! ## Cursor monotonicity -/

theorem Conn.read_current_le (c : Conn) (cap : Nat) :
    ∀ r, c.read cap = some r → c.current ≤ r.2.2.current := by
  induction c, cap using Conn.read.induct with
  | case1 c cap hcl =>
    intro r hr
    rw [Conn.read_closed c cap hcl] at hr
    simp only [Option.some.injEq] at hr
    subst hr
    exact Nat.le_refl _
  | case2 c cap hcl d orig hg hd =>
    intro r hr
    simp only [Bool.not_eq_true] at hcl
    rw [Conn.read_data c cap d orig hcl hg (List.length_pos.mp hd)] at hr
    simp only [Option.some.injEq] at hr
    subst hr
    exact Nat.le_refl _
  | case3 c cap hcl d orig hg hd d' orig' hn ih =>
    intro r hr
    simp only [Bool.not_eq_true] at hcl
    have hd0 : d = [] := by simpa using Nat.le_zero.mp (Nat.not_lt.mp hd)
    subst hd0
    rw [Conn.read_skipRead c cap orig d' orig' hcl hg hn] at hr
    have h1 := ih r hr
    simp only at h1
    omega
  | case4 c cap hcl d orig hg hd hn =>
    intro r hr
    simp only [Bool.not_eq_true] at hcl
    have hd0 : d = [] := by simpa using Nat.le_zero.mp (Nat.not_lt.mp hd)
    subst hd0
    rw [Conn.read_noNext c cap orig hcl hg hn] at hr
    simp only [Option.some.injEq] at hr
    subst hr
    exact Nat.le_refl _
  | case5 c cap hcl d orig hg hd hlt =>
    intro r hr
    simp only [Bool.not_eq_true] at hcl
    have hd0 : d = [] := List.length_eq_zero.mp hd
    subst hd0
    rw [Conn.read_emptyWrite c cap orig hcl hg hlt] at hr
    simp only [Option.some.injEq] at hr
    subst hr
    exact Nat.le_succ _
  | case6 c cap hcl d orig hg hd hlt =>
    intro r hr
    simp only [Bool.not_eq_true] at hcl
    have hd0 : d = [] := List.length_eq_zero.mp hd
    subst hd0
    rw [Conn.read_emptyWriteLast c cap orig hcl hg hlt] at hr
    simp at hr
  | case7 c cap hcl d orig hg hd =>
    intro r hr
    simp only [Bool.not_eq_true] at hcl
    have hd0 : d ≠ [] := fun h => hd (by simp [h])
    rw [Conn.read_onWrite c cap d orig hcl hg hd0] at hr
    simp only [Option.some.injEq] at hr
    subst hr
    exact Nat.le_refl _
  | case8 c cap hcl hg =>
    intro r hr
    simp only [Bool.not_eq_true] at hcl
    rw [Conn.read_onClose c cap hcl hg] at hr
    simp only [Option.some.injEq] at hr
    subst hr
    exact Nat.le_refl _
  | case9 c cap hcl hg =>
    intro r hr
    simp only [Bool.not_eq_true] at hcl
    rw [Conn.read_pastEnd c cap hcl hg] at hr
    simp only [Option.some.injEq] at hr
    subst hr
    exact Nat.le_refl _

theorem Conn.write_current_le (c : Conn) (b : List Byte) :
    c.current ≤ ((c.write b).2.2).current := by
  induction c, b using Conn.write.induct with
  | case1 c b hcl =>
    rw [Conn.write_closed c b hcl]
  | case2 c b hcl d orig hg hd =>
    simp only [Bool.not_eq_true] at hcl
    rw [Conn.write_onRead c b d orig hcl hg (List.length_pos.mp hd)]
  | case3 c b hcl d orig hg hd ih =>
    simp only [Bool.not_eq_true] at hcl
    have hd0 : d = [] := by simpa using Nat.le_zero.mp (Nat.not_lt.mp hd)
    subst hd0
    rw [Conn.write_skipRead c b orig hcl hg]
    simp only at ih ⊢
    omega
  | case4 c b hcl d orig hg hle hsame hlen =>
    simp only [Bool.not_eq_true] at hcl
    have hb : b = d := by
      have := (sameBytes_eq_true_iff b d).mp hsame
      exact List.ext_get? fun i => by
        by_cases hi : i < b.length
        · exact this i hi
        · rw [List.get?_eq_none.mpr (Nat.le_of_not_lt hi),
            List.get?_eq_none.mpr (by omega)]
    subst hb
    rw [Conn.write_complete c b orig hcl hg]
    exact Nat.le_succ _
  | case5 c b hcl d orig hg hle hsame hlen =>
    simp only [Bool.not_eq_true] at hcl
    rw [Conn.write_shrink c b d orig hcl hg (Nat.lt_of_le_of_ne hle hlen) hsame]
  | case6 c b hcl d orig hg hle hsame =>
    simp only [Bool.not_eq_true] at hcl
    rw [Conn.write_mismatch c b d orig hcl hg (Or.inr (Bool.not_eq_true _ ▸ hsame))]
  | case7 c b hcl d orig hg hle =>
    simp only [Bool.not_eq_true] at hcl
    rw [Conn.write_mismatch c b d orig hcl hg (Or.inl (Nat.not_le.mp hle))]
  | case8 c b hcl hg =>
    simp only [Bool.not_eq_true] at hcl
    rw [Conn.write_onClose c b hcl hg]
  | case9 c b hcl hg =>
    simp only [Bool.not_eq_true] at hcl
    rw [Conn.write_pastEnd c b hcl hg]

theorem Conn.close_current_le (c : Conn) :
    c.current ≤ ((c.close).2).current := by
  induction c using Conn.close.induct with
  | case1 c hcl =>
    rw [Conn.close_closed c hcl]
  | case2 c hcl d orig hg hd =>
    simp only [Bool.not_eq_true] at hcl
    rw [Conn.close_onRead c d orig hcl hg (List.length_pos.mp hd)]
  | case3 c hcl d orig hg hd ih =>
    simp only [Bool.not_eq_true] at hcl
    have hd0 : d = [] := by simpa using Nat.le_zero.mp (Nat.not_lt.mp hd)
    subst hd0
    rw [Conn.close_skipRead c orig hcl hg]
    simp only at ih ⊢
    omega
  | case4 c hcl d orig hg =>
    simp only [Bool.not_eq_true] at hcl
    rw [Conn.close_onWrite c d orig hcl hg]
  | case5 c hcl hg =>
    simp only [Bool.not_eq_true] at hcl
    rw [Conn.close_onClose c hcl hg]
    exact Nat.le_succ _
  | case6 c hcl hg =>
    simp only [Bool.not_eq_true] at hcl
    rw [Conn.close_pastEnd c hcl hg]

/-- A `Close` call that returns no error has set the closed latch. -/
theorem Conn.close_none_closed (c : Conn) :
    (c.close).1 = none → ((c.close).2).closed = true := by
  induction c using Conn.close.induct with
  | case1 c hcl =>
    rw [Conn.close_closed c hcl]
    simp
  | case2 c hcl d orig hg hd =>
    simp only [Bool.not_eq_true] at hcl
    rw [Conn.close_onRead c d orig hcl hg (List.length_pos.mp hd)]
    simp
  | case3 c hcl d orig hg hd ih =>
    simp only [Bool.not_eq_true] at hcl
    have hd0 : d = [] := by simpa using Nat.le_zero.mp (Nat.not_lt.mp hd)
    subst hd0
    rw [Conn.close_skipRead c orig hcl hg]
    exact ih
  | case4 c hcl d orig hg =>
    simp only [Bool.not_eq_true] at hcl
    rw [Conn.close_onWrite c d orig hcl hg]
    simp
  | case5 c hcl hg =>
    simp only [Bool.not_eq_true] at hcl
    rw [Conn.close_onClose c hcl hg]
    simp
  | case6 c hcl hg =>
    simp only [Bool.not_eq_true] at hcl
    rw [Conn.close_pastEnd c hcl hg]
    simp

/-! ## Draining all-receive scenarios -/

theorem streamFrom_advance (c : Conn) (d orig : List Byte)
    (hg : c.getAction c.current = some (.read d orig)) :
    streamFrom c = d ++ streamFrom { c with current := c.current + 1 } := by
  simp only [Conn.getAction] at hg
  obtain ⟨hlt, hget⟩ := List.get?_eq_some.mp hg
  unfold streamFrom
  simp only
  rw [List.drop_eq_get_cons hlt, hget]
  simp

theorem streamFrom_set_read (c : Conn) (e orig : List Byte)
    (hlt : c.current < c.scenario.length) :
    streamFrom { c with scenario := c.scenario.set c.current (.read e orig) } =
      e ++ streamFrom { c with current := c.current + 1 } := by
  unfold streamFrom
  simp only
  rw [drop_set_cons _ _ _ hlt]
  simp

theorem allRead_set_read (c : Conn) (e orig : List Byte) (h : allRead c) :
    allRead { c with scenario := c.scenario.set c.current (.read e orig) } := by
  intro a ha
  rcases List.mem_or_eq_of_mem_set ha with h1 | h1
  · exact h a h1
  · subst h1; rfl

theorem Conn.read_drain_aux : ∀ (k : Nat) (c : Conn) (cap : Nat),
    c.scenario.length - c.current ≤ k → c.closed = false → allRead c →
    ∃ bs c', c.read cap = some ((bs.length, bs), none, c') ∧
      c'.errors = c.errors ∧ bs ++ streamFrom c' = streamFrom c ∧
      allRead c' ∧ c'.closed = false := by
  intro k
  induction k with
  | zero =>
    intro c cap hk hcl hall
    have hnone : c.getAction c.current = none := by
      simp only [Conn.getAction]
      exact List.get?_eq_none.mpr (by omega)
    exact ⟨[], c, by simpa using Conn.read_pastEnd c cap hcl hnone, rfl, by simp, hall, hcl⟩
  | succ k ih =>
    intro c cap hk hcl hall
    match hg : c.getAction c.current with
    | none =>
      exact ⟨[], c, by simpa using Conn.read_pastEnd c cap hcl hg, rfl, by simp, hall, hcl⟩
    | some a =>
      have hmem : a ∈ c.scenario := List.get?_mem (by simpa [Conn.getAction] using hg)
      have hisread := hall a hmem
      have hcur : c.current < c.scenario.length := by
        simp only [Conn.getAction] at hg
        exact (List.get?_eq_some.mp hg).1
      cases a with
      | write d orig => simp [Action.isRead] at hisread
      | close => simp [Action.isRead] at hisread
      | read d orig =>
        cases hd : d with
        | cons x xs =>
          subst hd
          have hr := Conn.read_data c cap (x :: xs) orig hcl hg (by simp)
          have hlen : ((x :: xs).take (min cap (x :: xs).length)).length
              = min cap (x :: xs).length := by
            simp [List.length_take]
          refine ⟨(x :: xs).take (min cap (x :: xs).length),
            { c with scenario := c.scenario.set c.current (.read ((x :: xs).drop (min cap (x :: xs).length)) orig) },
            ?_, rfl, ?_, ?_, hcl⟩
          · rw [hr, hlen]
          · rw [streamFrom_set_read c _ orig hcur, streamFrom_advance c (x :: xs) orig hg,
              ← List.append_assoc, List.take_append_drop]
          · exact allRead_set_read c _ orig hall
        | nil =>
          subst hd
          match hn : c.getAction (c.current + 1) with
          | some a' =>
            have hmem' : a' ∈ c.scenario := List.get?_mem (by simpa [Conn.getAction] using hn)
            have hisread' := hall a' hmem'
            cases a' with
            | write d' orig' => simp [Action.isRead] at hisread'
            | close => simp [Action.isRead] at hisread'
            | read d' orig' =>
              have hstep := Conn.read_skipRead c cap orig d' orig' hcl hg hn
              have hall' : allRead { c with current := c.current + 1 } := hall
              obtain ⟨bs, c', h1, h2, h3, h4, h5⟩ :=
                ih { c with current := c.current + 1 } cap (by simp; omega) hcl hall'
              refine ⟨bs, c', ?_, h2, ?_, h4, h5⟩
              · rw [hstep]; exact h1
              · rw [streamFrom_advance c [] orig hg]
                simpa using h3
          | none =>
            have hnone : ∀ d' o', c.getAction (c.current + 1) = some (.read d' o') → False := by
              intro d' o' h
              rw [hn] at h
              cases h
            exact ⟨[], c, by simpa using Conn.read_noNext c cap orig hcl hg hnone,
              rfl, by simp, hall, hcl⟩

/-! ## Chunked sends -/

theorem getAction_set (c : Conn) (a a' : Action) (h : c.getAction c.current = some a') :
    Conn.getAction { c with scenario := c.scenario.set c.current a } c.current = some a := by
  simp only [Conn.getAction] at *
  rw [List.get?_set_eq, h]
  rfl

theorem writeAll_cons (c : Conn) (ch : List Byte) (rest : List (List Byte)) :
    writeAll c (ch :: rest) =
      (((c.write ch).1, (c.write ch).2.1) :: (writeAll (c.write ch).2.2 rest).1,
        (writeAll (c.write ch).2.2 rest).2) := rfl

theorem writeAll_proper_go :
    ∀ (pre : List (List Byte)) (c : Conn) (d orig : List Byte),
    c.closed = false → c.getAction c.current = some (.write d orig) →
    (∀ ch ∈ pre, ch ≠ []) → pre.flatten.length < d.length → (∃ t, pre.flatten ++ t = d) →
    (writeAll c pre).1 = pre.map (fun ch => (ch.length, (none : Option RWErr))) ∧
    (writeAll c pre).2.current = c.current ∧
    (writeAll c pre).2.errors = c.errors ∧
    (writeAll c pre).2.closed = false ∧
    (writeAll c pre).2.getAction (writeAll c pre).2.current =
      some (.write (d.drop pre.flatten.length) orig) := by
  intro pre
  induction pre with
  | nil =>
    intro c d orig hcl hg _ _ _
    exact ⟨rfl, rfl, rfl, hcl, hg⟩
  | cons ch rest ih =>
    intro c d orig hcl hg hne hlt hex
    obtain ⟨t, ht⟩ := hex
    rw [List.flatten_cons, List.append_assoc] at ht
    have hsame : sameBytes ch d = true := ht ▸ sameBytes_append ch (rest.flatten ++ t)
    have hchlt : ch.length < d.length := by
      simp only [List.flatten_cons, List.length_append] at hlt
      omega
    have hw := Conn.write_shrink c ch d orig hcl hg hchlt hsame
    have hdrop : d.drop ch.length = rest.flatten ++ t := by
      rw [← ht, List.drop_left]
    have hg' := getAction_set c (.write (d.drop ch.length) orig) _ hg
    have ihres := ih { c with scenario := c.scenario.set c.current (.write (d.drop ch.length) orig) }
      (d.drop ch.length) orig hcl hg'
      (fun x hx => hne x (by simp [hx]))
      (by simp only [List.length_drop, List.flatten_cons, List.length_append] at hlt ⊢; omega)
      ⟨t, hdrop.symm⟩
    obtain ⟨i1, i2, i3, i4, i5⟩ := ihres
    have harith : List.drop rest.flatten.length (List.drop ch.length d) =
        List.drop (ch :: rest).flatten.length d := by
      rw [List.drop_drop, List.flatten_cons, List.length_append, Nat.add_comm]
    rw [writeAll_cons, hw]
    refine ⟨?_, ?_, ?_, ?_, ?_⟩
    · simp [i1]
    · simp [i2]
    · simp [i3]
    · simp [i4]
    · rw [i5, harith]

theorem writeAll_complete_go :
    ∀ (chunks : List (List Byte)) (c : Conn) (d orig : List Byte),
    c.closed = false → c.getAction c.current = some (.write d orig) →
    (∀ ch ∈ chunks, ch ≠ []) → chunks ≠ [] → chunks.flatten = d →
    (writeAll c chunks).1 = chunks.map (fun ch => (ch.length, (none : Option RWErr))) ∧
    (writeAll c chunks).2.errors = c.errors ∧
    (writeAll c chunks).2.current = c.current + 1 := by
  intro chunks
  induction chunks with
  | nil => intro c d orig _ _ _ hne _; exact absurd rfl hne
  | cons ch rest ih =>
    intro c d orig hcl hg hne _ hflat
    cases rest with
    | nil =>
      have hch : ch = d := by simpa using hflat
      subst hch
      have hw := Conn.write_complete c ch orig hcl hg
      rw [writeAll_cons, hw]
      exact ⟨rfl, rfl, rfl⟩
    | cons ch2 rest2 =>
      rw [List.flatten_cons] at hflat
      have hsame : sameBytes ch d = true := hflat ▸ sameBytes_append ch (ch2 :: rest2).flatten
      have hch2 : ch2 ≠ [] := hne ch2 (by simp)
      have hchlt : ch.length < d.length := by
        rw [← hflat]
        have h2 : 0 < ch2.length := List.length_pos.mpr hch2
        simp only [List.length_append, List.flatten_cons]
        omega
      have hw := Conn.write_shrink c ch d orig hcl hg hchlt hsame
      have hdrop : d.drop ch.length = (ch2 :: rest2).flatten := by
        rw [← hflat, List.drop_left]
      have hg' := getAction_set c (.write (d.drop ch.length) orig) _ hg
      have ihres := ih { c with scenario := c.scenario.set c.current (.write (d.drop ch.length) orig) }
        (d.drop ch.length) orig hcl hg'
        (fun x hx => hne x (by simp [hx])) (by simp) hdrop.symm
      obtain ⟨i1, i2, i3⟩ := ihres
      rw [writeAll_cons, hw]
      refine ⟨?_, ?_, ?_⟩ <;> simp [i1, i2, i3]

/-! ## The claims -/

/-- Claim C1: for the scenario `[Send("hello!!"), Terminate]`, sending
"good morning!!" fails with a payload-mismatch error reporting
expected = "hello!!", actual = "good morning!!" and leaves the cursor at 0,
and `Verify` then returns three diagnostics in order: the mismatch, the
leftover-data-never-sent diagnostic for "hello!!", and the
unconsumed-scenario diagnostic.  The code however reports the unconsumed
count as 1 of 2 (it advances the cursor past the leftover `Send` before
counting), not 2 of 2 as the claim (and the repository's own
`ExampleConn_Verify` golden output) states; this theorem evaluates the
code at the failing input. -/
theorem C1_mismatch_then_verify :
    connMismatch.write goodMorningBytes =
      (0, some (.diag (.writeMismatch 1 helloBytes goodMorningBytes)),
        { connMismatch with errors := [.writeMismatch 1 helloBytes goodMorningBytes] }) ∧
    ({ connMismatch with errors := [.writeMismatch 1 helloBytes goodMorningBytes] } : Conn).verify.1 =
      [.writeMismatch 1 helloBytes goodMorningBytes, .remainedWrite 1 helloBytes,
        .unconsumed 1 2] ∧
    ({ connMismatch with errors := [.writeMismatch 1 helloBytes goodMorningBytes] } : Conn).verify.1 ≠
      [.writeMismatch 1 helloBytes goodMorningBytes, .remainedWrite 1 helloBytes,
        .unconsumed 2 2] := by
  refine ⟨?_, ?_, ?_⟩
  · simp [Conn.write, connMismatch, New, Conn.setExpectedActions, Write, Close, helloBytes,
      goodMorningBytes, Conn.getAction, sameBytes, Conn.addErr]
  · simp [Conn.verify, connMismatch, New, Conn.setExpectedActions, Write, Close, helloBytes,
      goodMorningBytes, Conn.getAction, Conn.addErr]
  · simp [Conn.verify, connMismatch, New, Conn.setExpectedActions, Write, Close, helloBytes,
      goodMorningBytes, Conn.getAction, Conn.addErr]

/-- Claim C2 claims that a receive finding a fully-satisfied (empty)
`Send` action at the cursor advances past it and retries, delivering the
bytes of a following `Receive` action in that same call.  The code only
advances the cursor and returns 0 bytes with no failure (the retry
assignment in the Go source is dead code); the following `Receive` data
is delivered only by the next call.  This theorem evaluates the code at
the failing input `[Send(""), Receive("ab")]`. -/
theorem C2_skip_without_retry :
    (Conn.mk [] [.write [] [], .read [97, 98] [97, 98]] 0 false).read 2 =
      some ((0, []), none, Conn.mk [] [.write [] [], .read [97, 98] [97, 98]] 1 false) ∧
    (Conn.mk [] [.write [] [], .read [97, 98] [97, 98]] 1 false).read 2 =
      some ((2, [97, 98]), none, Conn.mk [] [.write [] [], .read [] [97, 98]] 1 false) := by
  constructor
  · simp [Conn.read, Conn.getAction]
  · simp [Conn.read, Conn.getAction]

/-- Claim C3 (counterexample): terminating when the action at the cursor
is a `Send` whose remaining bytes are empty does **not** skip past it:
`Close` fails with a should-write diagnostic and the cursor stays at 0,
with the closed latch still unset. -/
theorem C3_counterexample_close_empty_send :
    (Conn.mk [] [.write [] []] 0 false).close =
      (some (.diag (.shouldWriteButClose 1)),
        Conn.mk [.shouldWriteButClose 1] [.write [] []] 0 false) := by
  simp [Conn.close, Conn.getAction, Conn.addErr]

/-- Claim C3 (amended): on a non-terminated connection the cursor never
moves backward under receive, send, or terminate; a fully-satisfied
(empty) `Receive` is skipped by send and by terminate (which retry
against the next action), and by a receive when the following action is
also a `Receive` (the call retries against it); a fully-satisfied
`Send` is skipped by a receive — the cursor advances and that call
returns 0 bytes with no failure — provided the empty `Send` is not the
scenario's last action (when it is last the call crashes instead, the
separate C10 defect); but terminate does **not** skip an empty `Send` —
it records a should-write diagnostic and leaves the cursor unchanged. -/
theorem C3_cursor_monotone_and_skips (c : Conn) (cap : Nat) (b : List Byte) :
    (∀ r, c.read cap = some r → c.current ≤ r.2.2.current) ∧
    (c.current ≤ ((c.write b).2.2).current) ∧
    (c.current ≤ ((c.close).2).current) ∧
    (∀ orig d' orig', c.closed = false →
      c.getAction c.current = some (.read [] orig) →
      c.getAction (c.current + 1) = some (.read d' orig') →
      c.read cap = ({ c with current := c.current + 1 }).read cap) ∧
    (∀ orig, c.closed = false → c.getAction c.current = some (.read [] orig) →
      c.write b = ({ c with current := c.current + 1 }).write b) ∧
    (∀ orig, c.closed = false → c.getAction c.current = some (.read [] orig) →
      c.close = ({ c with current := c.current + 1 }).close) ∧
    (∀ orig, c.closed = false → c.getAction c.current = some (.write [] orig) →
      c.current + 1 < c.scenario.length →
      c.read cap = some ((0, []), none, { c with current := c.current + 1 })) ∧
    (∀ orig, c.closed = false → c.getAction c.current = some (.write [] orig) →
      ¬ c.current + 1 < c.scenario.length → c.read cap = none) ∧
    (∀ orig, c.closed = false → c.getAction c.current = some (.write [] orig) →
      c.close = (some (.diag (.shouldWriteButClose (c.current + 1))),
        { c with errors := c.errors ++ [.shouldWriteButClose (c.current + 1)] })) :=
  ⟨Conn.read_current_le c cap, Conn.write_current_le c b, Conn.close_current_le c,
    fun orig d' orig' hcl hg hn => Conn.read_skipRead c cap orig d' orig' hcl hg hn,
    fun orig hcl hg => Conn.write_skipRead c b orig hcl hg,
    fun orig hcl hg => Conn.close_skipRead c orig hcl hg,
    fun orig hcl hg hlt => Conn.read_emptyWrite c cap orig hcl hg hlt,
    fun orig hcl hg hlt => Conn.read_emptyWriteLast c cap orig hcl hg hlt,
    fun orig hcl hg => Conn.close_onWrite c [] orig hcl hg⟩

/-- Witness for C3 (amended): the skip-empty-send-on-receive conjunct at
the concrete scenario `[Send(""), Terminate]`. -/
theorem C3_cursor_monotone_and_skips_witness :
    ((Conn.mk [] [.write [] [], .close] 0 false).closed = false ∧
      (Conn.mk [] [.write [] [], .close] 0 false).getAction 0 = some (.write [] []) ∧
      0 + 1 < (Conn.mk [] [.write [] [], .close] 0 false).scenario.length) ∧
    (Conn.mk [] [.write [] [], .close] 0 false).read 3 =
      some ((0, []), none, Conn.mk [] [.write [] [], .close] 1 false) :=
  ⟨⟨rfl, by decide, by decide⟩,
    (C3_cursor_monotone_and_skips
        (Conn.mk [] [.write [] [], .close] 0 false) 3 []).2.2.2.2.2.2.1
      [] rfl (by decide) (by decide)⟩

/-- Claim C4: submitting the expected bytes of a `Send` action in any
number of consecutive non-empty chunks along prefix boundaries makes
each send call return that chunk's length with no failure and no
diagnostic, and the cursor advances past the `Send` action exactly at
the call where the cumulative submitted bytes equal the remaining bytes
(for every proper prefix of the chunk list the cursor has not moved). -/
theorem C4_chunked_send (c : Conn) (d orig : List Byte) (chunks : List (List Byte))
    (hcl : c.closed = false) (hg : c.getAction c.current = some (.write d orig))
    (hne : ∀ ch ∈ chunks, ch ≠ []) (hnil : chunks ≠ []) (hflat : chunks.flatten = d) :
    (writeAll c chunks).1 = chunks.map (fun ch => (ch.length, (none : Option RWErr))) ∧
    (writeAll c chunks).2.errors = c.errors ∧
    (writeAll c chunks).2.current = c.current + 1 ∧
    (∀ pre suf, chunks = pre ++ suf → suf ≠ [] →
      (writeAll c pre).2.current = c.current ∧
      (writeAll c pre).1 = pre.map (fun ch => (ch.length, (none : Option RWErr)))) := by
  obtain ⟨h1, h2, h3⟩ := writeAll_complete_go chunks c d orig hcl hg hne hnil hflat
  refine ⟨h1, h2, h3, ?_⟩
  intro pre suf hsplit hsuf
  have hnepre : ∀ ch ∈ pre, ch ≠ [] := fun x hx =>
    hne x (by rw [hsplit]; exact List.mem_append_left _ hx)
  have hjoin : pre.flatten ++ suf.flatten = d := by
    rw [← hflat, hsplit, List.flatten_append]
  have hsufne : suf.flatten ≠ [] := by
    cases suf with
    | nil => exact absurd rfl hsuf
    | cons s ss =>
      have hs : s ≠ [] := hne s (by rw [hsplit]; exact List.mem_append_right _ (by simp))
      rw [List.flatten_cons]
      intro hz
      exact hs (List.append_eq_nil.mp hz).1
  have hlt : pre.flatten.length < d.length := by
    have hp := List.length_pos.mpr hsufne
    have := congrArg List.length hjoin
    simp only [List.length_append] at this
    omega
  obtain ⟨p1, p2, p3, p4, p5⟩ :=
    writeAll_proper_go pre c d orig hcl hg hnepre hlt ⟨suf.flatten, hjoin⟩
  exact ⟨p2, p1⟩

/-- Witness for C4: the word "sun" sent as the chunks "s" then "un". -/
theorem C4_chunked_send_witness :
    ((Conn.mk [] [.write [115, 117, 110] [115, 117, 110]] 0 false).closed = false ∧
      (Conn.mk [] [.write [115, 117, 110] [115, 117, 110]] 0 false).getAction 0 =
        some (.write [115, 117, 110] [115, 117, 110]) ∧
      ([[115], [117, 110]] : List (List Byte)).flatten = [115, 117, 110]) ∧
    (writeAll (Conn.mk [] [.write [115, 117, 110] [115, 117, 110]] 0 false)
        [[115], [117, 110]]).1 = [(1, none), (2, none)] ∧
    (writeAll (Conn.mk [] [.write [115, 117, 110] [115, 117, 110]] 0 false)
        [[115], [117, 110]]).2.errors = [] ∧
    (writeAll (Conn.mk [] [.write [115, 117, 110] [115, 117, 110]] 0 false)
        [[115], [117, 110]]).2.current = 1 :=
  ⟨⟨rfl, by decide, by decide⟩,
    (C4_chunked_send (Conn.mk [] [.write [115, 117, 110] [115, 117, 110]] 0 false)
      [115, 117, 110] [115, 117, 110] [[115], [117, 110]]
      rfl (by decide) (by decide) (by decide) (by decide)).1,
    (C4_chunked_send (Conn.mk [] [.write [115, 117, 110] [115, 117, 110]] 0 false)
      [115, 117, 110] [115, 117, 110] [[115], [117, 110]]
      rfl (by decide) (by decide) (by decide) (by decide)).2.1,
    (C4_chunked_send (Conn.mk [] [.write [115, 117, 110] [115, 117, 110]] 0 false)
      [115, 117, 110] [115, 117, 110] [[115], [117, 110]]
      rfl (by decide) (by decide) (by decide) (by decide)).2.2.1⟩

/-- Claim C5: a send whose bytes differ from the `Send` action's
remaining bytes at some position, or submit more bytes than remain,
fails, appends exactly one payload-mismatch diagnostic recording the
expected remaining bytes and the actual submitted bytes, and leaves the
cursor, scenario and remaining bytes unchanged; resubmitting the full
expected remaining bytes afterwards succeeds and advances the cursor. -/
theorem C5_mismatch_diag (c : Conn) (d orig b : List Byte)
    (hcl : c.closed = false) (hg : c.getAction c.current = some (.write d orig))
    (hbad : d.length < b.length ∨ ∃ i, i < b.length ∧ i < d.length ∧ b.get? i ≠ d.get? i) :
    c.write b = (0, some (.diag (.writeMismatch (c.current + 1) d b)),
      { c with errors := c.errors ++ [.writeMismatch (c.current + 1) d b] }) ∧
    ({ c with errors := c.errors ++ [.writeMismatch (c.current + 1) d b] } : Conn).write d =
      (d.length, none,
        { c with errors := c.errors ++ [.writeMismatch (c.current + 1) d b], current := c.current + 1 }) := by
  have hbad' : d.length < b.length ∨ sameBytes b d = false := by
    rcases hbad with h | ⟨i, hib, hid, hne⟩
    · exact Or.inl h
    · right
      by_contra hcon
      have htrue : sameBytes b d = true := by
        cases hsb : sameBytes b d with
        | false => exact absurd hsb hcon
        | true => rfl
      exact hne ((sameBytes_eq_true_iff b d).mp htrue i hib)
  exact ⟨Conn.write_mismatch c b d orig hcl hg hbad',
    Conn.write_complete _ d orig hcl hg⟩

/-- Witness for C5: expected "hi", submitted "ho" (differs at index 1). -/
theorem C5_mismatch_diag_witness :
    ((Conn.mk [] [.write [104, 105] [104, 105]] 0 false).closed = false ∧
      (Conn.mk [] [.write [104, 105] [104, 105]] 0 false).getAction 0 =
        some (.write [104, 105] [104, 105]) ∧
      (([104, 111] : List Byte).get? 1 ≠ ([104, 105] : List Byte).get? 1)) ∧
    (Conn.mk [] [.write [104, 105] [104, 105]] 0 false).write [104, 111] =
      (0, some (.diag (.writeMismatch 1 [104, 105] [104, 111])),
        Conn.mk [.writeMismatch 1 [104, 105] [104, 111]] [.write [104, 105] [104, 105]] 0 false) ∧
    (Conn.mk [.writeMismatch 1 [104, 105] [104, 111]] [.write [104, 105] [104, 105]] 0 false).write
        [104, 105] =
      (2, none,
        Conn.mk [.writeMismatch 1 [104, 105] [104, 111]] [.write [104, 105] [104, 105]] 1 false) :=
  by
  have h := C5_mismatch_diag (Conn.mk [] [.write [104, 105] [104, 105]] 0 false)
    [104, 105] [104, 105] [104, 111] rfl (by decide)
    (Or.inr ⟨1, by decide, by decide, by decide⟩)
  exact ⟨⟨rfl, by decide, by decide⟩, h.1, h.2⟩

/-- Claim C6: `Verify` returns the diagnostic list captured at entry
followed by the newly synthesized diagnostics, and on return the stored
diagnostic list equals that entry baseline again, so a second `Verify`
call also returns the baseline followed by freshly computed diagnostics
rather than re-duplicating the first call's synthesized ones. -/
theorem C6_verify_restores_baseline (c : Conn) :
    (∃ extra, (c.verify).1 = c.errors ++ extra) ∧
    (c.verify).2.errors = c.errors ∧
    (∃ extra2, ((c.verify).2.verify).1 = c.errors ++ extra2) := by
  obtain ⟨⟨e1, he1⟩, h2⟩ := Conn.verify_frame c
  refine ⟨⟨e1, he1⟩, h2, ?_⟩
  obtain ⟨⟨e2, he2⟩, _⟩ := Conn.verify_frame (c.verify).2
  exact ⟨e2, by rw [he2, h2]⟩

/-- Claim C7: after a terminate call has succeeded, every subsequent
receive, send, or terminate call fails immediately with the
already-closed error and leaves the state (cursor, scenario, closed
latch, diagnostics) entirely unchanged. -/
theorem C7_closed_rejects_all (c c' : Conn) (cap : Nat) (b : List Byte)
    (h : c.close = (none, c')) :
    c'.read cap = some ((0, []), some .alreadyClosed, c') ∧
    c'.write b = (0, some .alreadyClosed, c') ∧
    c'.close = (some .alreadyClosed, c') := by
  have h1 : (c.close).1 = none := by rw [h]
  have h2 := Conn.close_none_closed c h1
  rw [h] at h2
  exact ⟨Conn.read_closed c' cap h2, Conn.write_closed c' b h2, Conn.close_closed c' h2⟩

/-- Witness for C7: terminating the scenario `[Terminate]` and then
attempting all three operations. -/
theorem C7_closed_rejects_all_witness :
    (Conn.mk [] [.close] 0 false).close = (none, Conn.mk [] [.close] 1 true) ∧
    ((Conn.mk [] [.close] 1 true).read 4 =
        some ((0, []), some .alreadyClosed, Conn.mk [] [.close] 1 true) ∧
      (Conn.mk [] [.close] 1 true).write [7] = (0, some .alreadyClosed, Conn.mk [] [.close] 1 true) ∧
      (Conn.mk [] [.close] 1 true).close = (some .alreadyClosed, Conn.mk [] [.close] 1 true)) :=
  ⟨by simp [Conn.close, Conn.getAction],
    C7_closed_rejects_all (Conn.mk [] [.close] 0 false) (Conn.mk [] [.close] 1 true) 4 [7]
      (by simp [Conn.close, Conn.getAction])⟩

/-- Claim C8: a receive against a `Receive` action with non-empty
remaining bytes copies exactly `min(C, |remaining|)` bytes from its
front, shrinks the remaining bytes by that amount, returns that count
with no failure, and does not advance the cursor even if the remaining
bytes become empty. -/
theorem C8_receive_copies (c : Conn) (cap : Nat) (d orig : List Byte)
    (hcl : c.closed = false) (hg : c.getAction c.current = some (.read d orig)) (hd : d ≠ []) :
    c.read cap = some ((min cap d.length, d.take (min cap d.length)), none,
      { c with scenario := c.scenario.set c.current (.read (d.drop (min cap d.length)) orig) }) ∧
    ((c.read cap).map fun r => r.2.2.current) = some c.current := by
  have h := Conn.read_data c cap d orig hcl hg hd
  exact ⟨h, by rw [h]; rfl⟩

/-- Witness for C8: receiving 2 of the 3 bytes of `Receive([5,6,7])`. -/
theorem C8_receive_copies_witness :
    ((Conn.mk [] [.read [5, 6, 7] [5, 6, 7]] 0 false).closed = false ∧
      (Conn.mk [] [.read [5, 6, 7] [5, 6, 7]] 0 false).getAction 0 =
        some (.read [5, 6, 7] [5, 6, 7])) ∧
    (Conn.mk [] [.read [5, 6, 7] [5, 6, 7]] 0 false).read 2 =
      some ((2, [5, 6]), none, Conn.mk [] [.read [7] [5, 6, 7]] 0 false) ∧
    (((Conn.mk [] [.read [5, 6, 7] [5, 6, 7]] 0 false).read 2).map fun r => r.2.2.current) =
      some 0 :=
  ⟨⟨rfl, by decide⟩,
    (C8_receive_copies (Conn.mk [] [.read [5, 6, 7] [5, 6, 7]] 0 false) 2 [5, 6, 7] [5, 6, 7]
      rfl (by decide) (by decide)).1,
    (C8_receive_copies (Conn.mk [] [.read [5, 6, 7] [5, 6, 7]] 0 false) 2 [5, 6, 7] [5, 6, 7]
      rfl (by decide) (by decide)).2⟩

/-- Claim C9: a receive against a `Receive` action with empty remaining
bytes peeks at the next action: if that is also a `Receive` the cursor
advances and the call retries against it; if it is not (or the scenario
has ended) the call returns 0 bytes with no failure and no diagnostic.
Consequently an all-`Receive` scenario drains in declared order: every
receive call succeeds with no failure and no diagnostic and removes the
delivered bytes from the front of the remaining declared stream; and a
receive past the scenario end returns 0 bytes with no failure. -/
theorem C9_receive_empty_and_drain (c : Conn) (cap : Nat) :
    (∀ orig d' orig', c.closed = false →
      c.getAction c.current = some (.read [] orig) →
      c.getAction (c.current + 1) = some (.read d' orig') →
      c.read cap = ({ c with current := c.current + 1 }).read cap) ∧
    (∀ orig, c.closed = false →
      c.getAction c.current = some (.read [] orig) →
      (∀ d' o', c.getAction (c.current + 1) = some (.read d' o') → False) →
      c.read cap = some ((0, []), none, c)) ∧
    (c.closed = false → allRead c →
      ∃ bs c', c.read cap = some ((bs.length, bs), none, c') ∧
        c'.errors = c.errors ∧ bs ++ streamFrom c' = streamFrom c ∧
        allRead c' ∧ c'.closed = false) ∧
    (c.closed = false → c.getAction c.current = none →
      c.read cap = some ((0, []), none, c)) :=
  ⟨fun orig d' orig' hcl hg hn => Conn.read_skipRead c cap orig d' orig' hcl hg hn,
    fun orig hcl hg hn => Conn.read_noNext c cap orig hcl hg hn,
    fun hcl hall =>
      Conn.read_drain_aux (c.scenario.length - c.current) c cap (Nat.le_refl _) hcl hall,
    fun hcl hg => Conn.read_pastEnd c cap hcl hg⟩

/-- Witness for C9: the drain conjunct on the all-receive scenario
`[Receive([97])]`. -/
theorem C9_receive_empty_and_drain_witness :
    ((Conn.mk [] [.read [97] [97]] 0 false).closed = false ∧
      allRead (Conn.mk [] [.read [97] [97]] 0 false)) ∧
    (∃ bs c', (Conn.mk [] [.read [97] [97]] 0 false).read 3 =
        some ((bs.length, bs), none, c') ∧
      c'.errors = (Conn.mk [] [.read [97] [97]] 0 false).errors ∧
      bs ++ streamFrom c' = streamFrom (Conn.mk [] [.read [97] [97]] 0 false) ∧
      allRead c' ∧ c'.closed = false) :=
  ⟨⟨rfl, fun a ha => by simp at ha; subst ha; rfl⟩,
    (C9_receive_empty_and_drain (Conn.mk [] [.read [97] [97]] 0 false) 3).2.2.1
      rfl (fun a ha => by simp at ha; subst ha; rfl)⟩

/-- Claim C10 claims a receive call is total at the public interface.
The code is not: when the action at the cursor is a `Send` whose byte
sequence is empty and that action is last in the scenario, `Read`
increments the cursor and then indexes `c.scenario[c.current]` directly,
which is out of range — a Go panic, modelled here as the `none` result.
This theorem evaluates the code at the failing input `[Send("")]`. -/
theorem C10_read_panics_on_trailing_empty_send :
    (Conn.mk [] [.write [] []] 0 false).read 1 = none := by
  simp [Conn.read, Conn.getAction]

end Mockconn
